import Mathlib

/-!
Verification development for the CrossingBench energy-cost model
(`src/crossingbench/core.py`).

The Python core is embedded shallowly:
* Python `float` arithmetic is modelled over `ℝ` (the code's `math.log` /
  `math.exp` become `Real.log` / `Real.exp`);
* Python `int` becomes `ℤ`;
* Python's builtin `round` (round-half-to-even) becomes `pyRound`;
* `ValueError` raised by `sweep` / `compare_baseline_vs_reduced` becomes an
  `Except String` result, with the original messages;
* the `float("inf")` sentinel of `energy_gain_x` is modelled with `EReal`
  (`⊤` standing for the IEEE positive infinity, `⊥` for negative infinity).
-/

namespace CrossingBench

open Classical

/-- `BoundaryCost` from core.py: `C_cross = alpha_pj_per_event * events +
beta_pj_per_byte * bytes`. -/
structure BoundaryCost where
  alpha_pj_per_event : ℝ
  beta_pj_per_byte : ℝ

/-- `ComputeCost` from core.py: `C_intra = pj_per_byte * bytes_compute`. -/
structure ComputeCost where
  pj_per_byte : ℝ

/-- `ProgramPoint` from core.py. -/
structure ProgramPoint where
  bytes_compute : ℤ
  bytes_cross : ℤ
  events_cross : ℤ

/-- `ResultPoint` from core.py. -/
structure ResultPoint where
  bytes_compute : ℤ
  bytes_cross : ℤ
  events_cross : ℤ
  c_intra_pj : ℝ
  c_cross_pj : ℝ
  c_total_pj : ℝ
  crossing_fraction : ℝ
  epsilon_local : ℝ

/-- Python's builtin `round` on a real value: nearest integer, ties to the
even integer (banker's rounding), as used by `int(round(...))` in core.py. -/
noncomputable def pyRound (x : ℝ) : ℤ :=
  if x - ⌊x⌋ < 1 / 2 then ⌊x⌋
  else if 1 / 2 < x - ⌊x⌋ then ⌊x⌋ + 1
  else if Even ⌊x⌋ then ⌊x⌋ else ⌊x⌋ + 1

/-- `energy_intra` from core.py. -/
noncomputable def energy_intra (bytes_compute : ℤ) (compute : ComputeCost) : ℝ :=
  (bytes_compute : ℝ) * compute.pj_per_byte

/-- `energy_cross` from core.py. -/
noncomputable def energy_cross (bytes_cross events_cross : ℤ)
    (boundary : BoundaryCost) : ℝ :=
  (events_cross : ℝ) * boundary.alpha_pj_per_event
    + (bytes_cross : ℝ) * boundary.beta_pj_per_byte

/-- `crossing_fraction` from core.py. -/
noncomputable def crossing_fraction (c_cross c_total : ℝ) : ℝ :=
  if c_total ≤ 0 then 0 else c_cross / c_total

/-- `log_slope` from core.py: local elasticity estimate between two points. -/
noncomputable def log_slope (x1 y1 x2 y2 : ℝ) : ℝ :=
  if x1 ≤ 0 ∨ x2 ≤ 0 ∨ y1 ≤ 0 ∨ y2 ≤ 0 ∨ x1 = x2 then 0
  else (Real.log y2 - Real.log y1) / (Real.log x2 - Real.log x1)

/-- `run_point` from core.py: `(c_intra, c_cross, c_total, frac)`. -/
noncomputable def run_point (p : ProgramPoint) (compute : ComputeCost)
    (boundary : BoundaryCost) : ℝ × ℝ × ℝ × ℝ :=
  (energy_intra p.bytes_compute compute,
   energy_cross p.bytes_cross p.events_cross boundary,
   energy_intra p.bytes_compute compute
     + energy_cross p.bytes_cross p.events_cross boundary,
   crossing_fraction
     (energy_cross p.bytes_cross p.events_cross boundary)
     (energy_intra p.bytes_compute compute
       + energy_cross p.bytes_cross p.events_cross boundary))

/-- The sampled crossing-byte count of step `i` of `sweep`:
`int(round(math.exp(log_min + t * (log_max - log_min))))` with
`t = i / (steps - 1)`. -/
noncomputable def sweepBytes (cross_min cross_max steps : ℤ) (i : ℕ) : ℤ :=
  pyRound (Real.exp (Real.log (cross_min : ℝ)
    + ((i : ℝ) / ((steps : ℝ) - 1))
      * (Real.log (cross_max : ℝ) - Real.log (cross_min : ℝ))))

/-- The event count charged for `b` crossing bytes:
`max(1, int(math.ceil(b / bytes_per_event)))` from core.py. -/
noncomputable def ceilEvents (b bytes_per_event : ℤ) : ℤ :=
  max 1 ⌈(b : ℝ) / (bytes_per_event : ℝ)⌉

/-- The `ProgramPoint` built by iteration `i` of the first loop of `sweep`. -/
noncomputable def sweepPoint (bytes_compute cross_min cross_max steps
    bytes_per_event : ℤ) (i : ℕ) : ProgramPoint :=
  { bytes_compute := bytes_compute
    bytes_cross := sweepBytes cross_min cross_max steps i
    events_cross := ceilEvents (sweepBytes cross_min cross_max steps i)
      bytes_per_event }

/-- The `ResultPoint` appended by iteration `i` of the final loop of `sweep`:
energies via `run_point`, `epsilon_local = 0` at `i = 0` and otherwise the
`log_slope` against the previous sample. -/
noncomputable def sweepResult (bytes_compute cross_min cross_max steps
    bytes_per_event : ℤ) (compute : ComputeCost) (boundary : BoundaryCost)
    (i : ℕ) : ResultPoint :=
  { bytes_compute := bytes_compute
    bytes_cross := sweepBytes cross_min cross_max steps i
    events_cross := ceilEvents (sweepBytes cross_min cross_max steps i)
      bytes_per_event
    c_intra_pj := (run_point
      (sweepPoint bytes_compute cross_min cross_max steps bytes_per_event i)
      compute boundary).1
    c_cross_pj := (run_point
      (sweepPoint bytes_compute cross_min cross_max steps bytes_per_event i)
      compute boundary).2.1
    c_total_pj := (run_point
      (sweepPoint bytes_compute cross_min cross_max steps bytes_per_event i)
      compute boundary).2.2.1
    crossing_fraction := (run_point
      (sweepPoint bytes_compute cross_min cross_max steps bytes_per_event i)
      compute boundary).2.2.2
    epsilon_local :=
      if i = 0 then 0
      else log_slope
        ((sweepBytes cross_min cross_max steps (i - 1) : ℤ) : ℝ)
        ((run_point (sweepPoint bytes_compute cross_min cross_max steps
          bytes_per_event (i - 1)) compute boundary).2.2.1)
        ((sweepBytes cross_min cross_max steps i : ℤ) : ℝ)
        ((run_point (sweepPoint bytes_compute cross_min cross_max steps
          bytes_per_event i) compute boundary).2.2.1) }

/-- `sweep` from core.py: validation, then one `ResultPoint` per step. -/
noncomputable def sweep (bytes_compute cross_min cross_max steps
    bytes_per_event : ℤ) (compute : ComputeCost) (boundary : BoundaryCost) :
    Except String (List ResultPoint) :=
  if steps < 2 then .error "steps must be >= 2"
  else if cross_min ≤ 0 ∨ cross_max ≤ 0 ∨ cross_min > cross_max then
    .error "Require 0 < cross_min <= cross_max"
  else if bytes_per_event ≤ 0 then .error "bytes_per_event must be > 0"
  else .ok ((List.range steps.toNat).map
    (sweepResult bytes_compute cross_min cross_max steps bytes_per_event
      compute boundary))

/-- The flat result mapping returned by `compare_baseline_vs_reduced`.
`energy_gain_x` and `elasticity_effective` live in `EReal` because the code
can produce IEEE infinities there (`float("inf")`, `math.log(inf)`). -/
structure CompareResult where
  baseline_total_pj : ℝ
  baseline_intra_pj : ℝ
  baseline_cross_pj : ℝ
  baseline_cross_frac : ℝ
  baseline_cross_bytes : ℝ
  baseline_events : ℝ
  reduced_total_pj : ℝ
  reduced_intra_pj : ℝ
  reduced_cross_pj : ℝ
  reduced_cross_frac : ℝ
  reduced_cross_bytes : ℝ
  reduced_events : ℝ
  reduce_factor : ℝ
  energy_gain_x : EReal
  elasticity_effective : EReal

/-- Baseline event count in `compare_baseline_vs_reduced`:
`max(1, int(math.ceil(cross_bytes / bytes_per_event)))`. -/
noncomputable def compareBaseEv (cross_bytes bytes_per_event : ℤ) : ℤ :=
  max 1 ⌈(cross_bytes : ℝ) / (bytes_per_event : ℝ)⌉

/-- Reduced byte count in `compare_baseline_vs_reduced`:
`max(1, int(round(cross_bytes / reduce_factor)))`. -/
noncomputable def compareRedBytes (cross_bytes : ℤ) (reduce_factor : ℝ) : ℤ :=
  max 1 (pyRound ((cross_bytes : ℝ) / reduce_factor))

/-- Reduced event count in `compare_baseline_vs_reduced`:
`max(1, int(math.ceil(red_bytes / bytes_per_event)))`. -/
noncomputable def compareRedEv (cross_bytes bytes_per_event : ℤ)
    (reduce_factor : ℝ) : ℤ :=
  max 1 ⌈((compareRedBytes cross_bytes reduce_factor : ℤ) : ℝ)
    / (bytes_per_event : ℝ)⌉

/-- `gain = base_total / red_total if red_total > 0 else float("inf")`. -/
noncomputable def compareGain (base_total red_total : ℝ) : EReal :=
  if 0 < red_total then ((base_total / red_total : ℝ) : EReal) else ⊤

/-- The `eff_eps` block of `compare_baseline_vs_reduced`: `0.0` unless
`reduce_factor != 1.0 and gain > 0`, in which case
`math.log(gain) / math.log(reduce_factor)` — with IEEE semantics
`log(inf) = inf` and `inf / x = ±inf` according to the sign of `x`. -/
noncomputable def compareEff (gain : EReal) (reduce_factor : ℝ) : EReal :=
  if reduce_factor ≠ 1 ∧ 0 < gain then
    if gain = ⊤ then (if 0 < Real.log reduce_factor then ⊤ else ⊥)
    else ((Real.log gain.toReal / Real.log reduce_factor : ℝ) : EReal)
  else 0

/-- The result mapping built by the non-error path of
`compare_baseline_vs_reduced`, field by field as the returned dict. -/
noncomputable def compareRecord (bytes_compute cross_bytes
    bytes_per_event : ℤ) (reduce_factor : ℝ) (compute : ComputeCost)
    (boundary : BoundaryCost) : CompareResult :=
      { baseline_total_pj := (run_point
          ⟨bytes_compute, cross_bytes, compareBaseEv cross_bytes bytes_per_event⟩
          compute boundary).2.2.1
        baseline_intra_pj := (run_point
          ⟨bytes_compute, cross_bytes, compareBaseEv cross_bytes bytes_per_event⟩
          compute boundary).1
        baseline_cross_pj := (run_point
          ⟨bytes_compute, cross_bytes, compareBaseEv cross_bytes bytes_per_event⟩
          compute boundary).2.1
        baseline_cross_frac := (run_point
          ⟨bytes_compute, cross_bytes, compareBaseEv cross_bytes bytes_per_event⟩
          compute boundary).2.2.2
        baseline_cross_bytes := ((cross_bytes : ℤ) : ℝ)
        baseline_events := ((compareBaseEv cross_bytes bytes_per_event : ℤ) : ℝ)
        reduced_total_pj := (run_point
          ⟨bytes_compute, compareRedBytes cross_bytes reduce_factor,
            compareRedEv cross_bytes bytes_per_event reduce_factor⟩
          compute boundary).2.2.1
        reduced_intra_pj := (run_point
          ⟨bytes_compute, compareRedBytes cross_bytes reduce_factor,
            compareRedEv cross_bytes bytes_per_event reduce_factor⟩
          compute boundary).1
        reduced_cross_pj := (run_point
          ⟨bytes_compute, compareRedBytes cross_bytes reduce_factor,
            compareRedEv cross_bytes bytes_per_event reduce_factor⟩
          compute boundary).2.1
        reduced_cross_frac := (run_point
          ⟨bytes_compute, compareRedBytes cross_bytes reduce_factor,
            compareRedEv cross_bytes bytes_per_event reduce_factor⟩
          compute boundary).2.2.2
        reduced_cross_bytes := ((compareRedBytes cross_bytes reduce_factor : ℤ) : ℝ)
        reduced_events := ((compareRedEv cross_bytes bytes_per_event reduce_factor : ℤ) : ℝ)
        reduce_factor := reduce_factor
        energy_gain_x := compareGain
          ((run_point
            ⟨bytes_compute, cross_bytes, compareBaseEv cross_bytes bytes_per_event⟩
            compute boundary).2.2.1)
          ((run_point
            ⟨bytes_compute, compareRedBytes cross_bytes reduce_factor,
              compareRedEv cross_bytes bytes_per_event reduce_factor⟩
            compute boundary).2.2.1)
        elasticity_effective := compareEff
          (compareGain
            ((run_point
              ⟨bytes_compute, cross_bytes, compareBaseEv cross_bytes bytes_per_event⟩
              compute boundary).2.2.1)
            ((run_point
              ⟨bytes_compute, compareRedBytes cross_bytes reduce_factor,
                compareRedEv cross_bytes bytes_per_event reduce_factor⟩
              compute boundary).2.2.1))
          reduce_factor }

/-- `compare_baseline_vs_reduced` from core.py. -/
noncomputable def compare_baseline_vs_reduced (bytes_compute cross_bytes
    bytes_per_event : ℤ) (reduce_factor : ℝ) (compute : ComputeCost)
    (boundary : BoundaryCost) : Except String CompareResult :=
  if cross_bytes ≤ 0 then .error "cross_bytes must be > 0"
  else if bytes_per_event ≤ 0 then .error "bytes_per_event must be > 0"
  else if reduce_factor ≤ 0 then .error "reduce_factor must be > 0"
  else
    .ok (compareRecord bytes_compute cross_bytes bytes_per_event
      reduce_factor compute boundary)

/-! ### Helper lemmas about `pyRound` -/

lemma floor_le_pyRound (x : ℝ) : ⌊x⌋ ≤ pyRound x := by
  unfold pyRound
  split_ifs <;> omega

lemma pyRound_le_floor_add_one (x : ℝ) : pyRound x ≤ ⌊x⌋ + 1 := by
  unfold pyRound
  split_ifs <;> omega

lemma pyRound_intCast (n : ℤ) : pyRound ((n : ℤ) : ℝ) = n := by
  unfold pyRound
  rw [Int.floor_intCast]
  norm_num

lemma pyRound_mono : Monotone pyRound := by
  intro x y hxy
  rcases lt_or_le ⌊x⌋ ⌊y⌋ with h | h
  · calc pyRound x ≤ ⌊x⌋ + 1 := pyRound_le_floor_add_one x
      _ ≤ ⌊y⌋ := by omega
      _ ≤ pyRound y := floor_le_pyRound y
  · have hfl : ⌊x⌋ = ⌊y⌋ := le_antisymm (Int.floor_mono hxy) h
    unfold pyRound
    rw [hfl]
    split_ifs <;> first | omega | linarith

lemma one_le_pyRound {x : ℝ} (hx : 1 ≤ x) : 1 ≤ pyRound x := by
  have h1 : (1 : ℤ) ≤ ⌊x⌋ := by
    rw [Int.le_floor]
    exact_mod_cast hx
  exact le_trans h1 (floor_le_pyRound x)

/-! ### Helper lemmas about the cost primitives -/

lemma crossing_fraction_nonneg {c_cross c_total : ℝ} (h : 0 ≤ c_cross) :
    0 ≤ crossing_fraction c_cross c_total := by
  unfold crossing_fraction
  split_ifs with ht
  · exact le_refl 0
  · exact div_nonneg h (le_of_lt (not_le.mp ht))

/-- At fixed intra energy `a ≥ 0`, the crossing fraction `x / (a + x)` is
monotone in the crossing energy `x ≥ 0`. -/
lemma crossing_fraction_mono_add {a x y : ℝ} (ha : 0 ≤ a) (hx : 0 ≤ x)
    (hxy : x ≤ y) :
    crossing_fraction x (a + x) ≤ crossing_fraction y (a + y) := by
  unfold crossing_fraction
  split_ifs with h1 h2 h2
  · exact le_refl 0
  · exact div_nonneg (hx.trans hxy) (by linarith [not_le.mp h2])
  · linarith [not_le.mp h1]
  · rw [div_le_div_iff (by linarith [not_le.mp h1]) (by linarith [not_le.mp h2])]
    nlinarith [mul_le_mul_of_nonneg_left hxy ha]

/-! ### Helper lemmas about the sweep sampler -/

lemma sweep_ok (bytes_compute cross_min cross_max steps bytes_per_event : ℤ)
    (compute : ComputeCost) (boundary : BoundaryCost)
    (hmin : 0 < cross_min) (hmm : cross_min ≤ cross_max) (hst : 2 ≤ steps)
    (hbpe : 0 < bytes_per_event) :
    sweep bytes_compute cross_min cross_max steps bytes_per_event compute
        boundary =
      .ok ((List.range steps.toNat).map (sweepResult bytes_compute cross_min
        cross_max steps bytes_per_event compute boundary)) := by
  unfold sweep
  rw [if_neg (by omega), if_neg (by omega), if_neg (by omega)]

lemma sweepBytes_zero (cross_min cross_max steps : ℤ) (hmin : 0 < cross_min) :
    sweepBytes cross_min cross_max steps 0 = cross_min := by
  unfold sweepBytes
  norm_num
  rw [Real.exp_log (by exact_mod_cast hmin)]
  exact pyRound_intCast cross_min

lemma sweepBytes_last (cross_min cross_max steps : ℤ) (hmax : 0 < cross_max)
    (hst : 2 ≤ steps) :
    sweepBytes cross_min cross_max steps (steps.toNat - 1) = cross_max := by
  unfold sweepBytes
  have hcast : ((steps.toNat - 1 : ℕ) : ℝ) = (steps : ℝ) - 1 := by
    rw [Nat.cast_sub (by omega)]
    have h2 : (steps.toNat : ℝ) = (steps : ℝ) := by
      exact_mod_cast congrArg (Int.cast : ℤ → ℝ) (Int.toNat_of_nonneg (by omega))
    rw [h2]
    norm_num
  have hne : (steps : ℝ) - 1 ≠ 0 := by
    have h2 : (2 : ℝ) ≤ (steps : ℝ) := by exact_mod_cast hst
    intro hc
    linarith
  rw [hcast, div_self hne, one_mul]
  have harith : Real.log (cross_min : ℝ)
      + (Real.log (cross_max : ℝ) - Real.log (cross_min : ℝ))
      = Real.log (cross_max : ℝ) := by ring
  rw [harith, Real.exp_log (by exact_mod_cast hmax)]
  exact pyRound_intCast cross_max

lemma sweepBytes_mono (cross_min cross_max steps : ℤ) (hmin : 0 < cross_min)
    (hmm : cross_min ≤ cross_max) (hst : 2 ≤ steps) {i j : ℕ} (hij : i ≤ j) :
    sweepBytes cross_min cross_max steps i
      ≤ sweepBytes cross_min cross_max steps j := by
  unfold sweepBytes
  apply pyRound_mono
  apply Real.exp_le_exp.mpr
  apply add_le_add_left
  apply mul_le_mul_of_nonneg_right
  · have hpos : (0 : ℝ) < (steps : ℝ) - 1 := by
      have h2 : (2 : ℝ) ≤ (steps : ℝ) := by exact_mod_cast hst
      linarith
    exact (div_le_div_right hpos).mpr (by exact_mod_cast hij)
  · have hlog := Real.log_le_log (by exact_mod_cast hmin)
      (by exact_mod_cast hmm : (cross_min : ℝ) ≤ (cross_max : ℝ))
    linarith

lemma one_le_sweepBytes (cross_min cross_max steps : ℤ) (hmin : 0 < cross_min)
    (hmm : cross_min ≤ cross_max) (hst : 2 ≤ steps) (i : ℕ) :
    1 ≤ sweepBytes cross_min cross_max steps i := by
  unfold sweepBytes
  apply one_le_pyRound
  have hm1 : (1 : ℝ) ≤ (cross_min : ℝ) := by exact_mod_cast hmin
  have hlogm : Real.exp (Real.log (cross_min : ℝ)) = (cross_min : ℝ) :=
    Real.exp_log (by linarith)
  have htnn : 0 ≤ ((i : ℝ) / ((steps : ℝ) - 1)) := by
    apply div_nonneg (Nat.cast_nonneg i)
    have h2 : (2 : ℝ) ≤ (steps : ℝ) := by exact_mod_cast hst
    linarith
  have hdnn : 0 ≤ Real.log (cross_max : ℝ) - Real.log (cross_min : ℝ) := by
    have hlog := Real.log_le_log (by exact_mod_cast hmin)
      (by exact_mod_cast hmm : (cross_min : ℝ) ≤ (cross_max : ℝ))
    linarith
  calc (1 : ℝ) ≤ (cross_min : ℝ) := hm1
    _ = Real.exp (Real.log (cross_min : ℝ)) := hlogm.symm
    _ ≤ _ := Real.exp_le_exp.mpr
        (le_add_of_nonneg_right (mul_nonneg htnn hdnn))

lemma one_le_ceilEvents (b bytes_per_event : ℤ) :
    1 ≤ ceilEvents b bytes_per_event :=
  le_max_left 1 _

lemma ceilEvents_mono {b1 b2 bytes_per_event : ℤ} (hbpe : 0 < bytes_per_event)
    (hb : b1 ≤ b2) :
    ceilEvents b1 bytes_per_event ≤ ceilEvents b2 bytes_per_event := by
  apply max_le_max le_rfl
  apply Int.ceil_mono
  have hpos : (0 : ℝ) < (bytes_per_event : ℝ) := by exact_mod_cast hbpe
  exact (div_le_div_right hpos).mpr (by exact_mod_cast hb)

/-! ### Claim theorems -/

/-- C2: for every `ProgramPoint` evaluated by `run_point`,
`c_total = c_intra + c_cross`, `c_intra = bytes_compute * pj_per_byte`,
`c_cross = events_cross * alpha + bytes_cross * beta`, the crossing fraction
is `c_cross / c_total` when `c_total > 0` and `0` otherwise, and all three
energies are non-negative when all cost parameters and counts are. -/
theorem run_point_invariants (p : ProgramPoint) (compute : ComputeCost)
    (boundary : BoundaryCost) :
    (run_point p compute boundary).2.2.1
      = (run_point p compute boundary).1 + (run_point p compute boundary).2.1 ∧
    (run_point p compute boundary).1
      = (p.bytes_compute : ℝ) * compute.pj_per_byte ∧
    (run_point p compute boundary).2.1
      = (p.events_cross : ℝ) * boundary.alpha_pj_per_event
        + (p.bytes_cross : ℝ) * boundary.beta_pj_per_byte ∧
    (0 < (run_point p compute boundary).2.2.1 →
      (run_point p compute boundary).2.2.2
        = (run_point p compute boundary).2.1
          / (run_point p compute boundary).2.2.1) ∧
    ((run_point p compute boundary).2.2.1 ≤ 0 →
      (run_point p compute boundary).2.2.2 = 0) ∧
    (0 ≤ compute.pj_per_byte → 0 ≤ boundary.alpha_pj_per_event →
      0 ≤ boundary.beta_pj_per_byte → 0 ≤ p.bytes_compute →
      0 ≤ p.bytes_cross → 0 ≤ p.events_cross →
      0 ≤ (run_point p compute boundary).1 ∧
      0 ≤ (run_point p compute boundary).2.1 ∧
      0 ≤ (run_point p compute boundary).2.2.1) := by
  unfold run_point energy_intra energy_cross
  refine ⟨rfl, rfl, rfl, ?_, ?_, ?_⟩
  · intro h
    unfold crossing_fraction
    rw [if_neg (not_le.mpr h)]
  · intro h
    unfold crossing_fraction
    rw [if_pos h]
  · intro hpj halpha hbeta hbc hbx hev
    have h1 : 0 ≤ (p.bytes_compute : ℝ) * compute.pj_per_byte :=
      mul_nonneg (by exact_mod_cast hbc) hpj
    have h2 : 0 ≤ (p.events_cross : ℝ) * boundary.alpha_pj_per_event
        + (p.bytes_cross : ℝ) * boundary.beta_pj_per_byte :=
      add_nonneg (mul_nonneg (by exact_mod_cast hev) halpha)
        (mul_nonneg (by exact_mod_cast hbx) hbeta)
    exact ⟨h1, h2, add_nonneg h1 h2⟩

/-- Witness for C2 at the concrete point `(2, 3, 1)` with unit-ish costs:
`c_total = 9 > 0` so the fraction is the quotient, and the total is
non-negative. -/
theorem run_point_invariants_witness :
    (run_point ⟨2, 3, 1⟩ ⟨1⟩ ⟨1, 2⟩).2.2.2
      = (run_point ⟨2, 3, 1⟩ ⟨1⟩ ⟨1, 2⟩).2.1
        / (run_point ⟨2, 3, 1⟩ ⟨1⟩ ⟨1, 2⟩).2.2.1 ∧
    0 ≤ (run_point ⟨2, 3, 1⟩ ⟨1⟩ ⟨1, 2⟩).2.2.1 :=
  ⟨(run_point_invariants ⟨2, 3, 1⟩ ⟨1⟩ ⟨1, 2⟩).2.2.2.1
      (by norm_num [run_point, energy_intra, energy_cross]),
   ((run_point_invariants ⟨2, 3, 1⟩ ⟨1⟩ ⟨1, 2⟩).2.2.2.2.2 (by norm_num)
      (by norm_num) (by norm_num) (by norm_num) (by norm_num)
      (by norm_num)).2.2⟩

/-- C6: `log_slope` returns the log-log slope on strictly positive inputs
with `x1 ≠ x2`, returns `0` whenever any argument is `≤ 0` or `x1 = x2`,
and `log_slope 1 10 2 20 = 1`. -/
theorem log_slope_spec :
    (∀ x1 y1 x2 y2 : ℝ, 0 < x1 → 0 < x2 → 0 < y1 → 0 < y2 → x1 ≠ x2 →
      log_slope x1 y1 x2 y2
        = (Real.log y2 - Real.log y1) / (Real.log x2 - Real.log x1)) ∧
    (∀ x1 y1 x2 y2 : ℝ,
      x1 ≤ 0 ∨ x2 ≤ 0 ∨ y1 ≤ 0 ∨ y2 ≤ 0 ∨ x1 = x2 →
      log_slope x1 y1 x2 y2 = 0) ∧
    log_slope 1 10 2 20 = 1 := by
  refine ⟨?_, ?_, ?_⟩
  · intro x1 y1 x2 y2 h1 h2 h3 h4 h5
    unfold log_slope
    rw [if_neg]
    push_neg
    exact ⟨h1, h2, h3, h4, h5⟩
  · intro x1 y1 x2 y2 h
    unfold log_slope
    rw [if_pos h]
  · unfold log_slope
    rw [if_neg (by norm_num)]
    rw [Real.log_one, sub_zero]
    rw [show (20 : ℝ) = 10 * 2 by norm_num,
      Real.log_mul (by norm_num) (by norm_num)]
    rw [add_sub_cancel_left]
    exact div_self (Real.log_ne_zero_of_pos_of_ne_one (by norm_num)
      (by norm_num))

/-- Witness for C6: the positive-branch formula applies at `(1,10,2,20)` and
the safe-zero branch at `(0,10,2,20)`. -/
theorem log_slope_spec_witness :
    log_slope 1 10 2 20
      = (Real.log 20 - Real.log 10) / (Real.log 2 - Real.log 1) ∧
    log_slope 0 10 2 20 = 0 :=
  ⟨log_slope_spec.1 1 10 2 20 (by norm_num) (by norm_num) (by norm_num)
      (by norm_num) (by norm_num),
   log_slope_spec.2.1 0 10 2 20 (Or.inl (le_refl 0))⟩

/-- C7 counterexample: the claim "crossing_fraction returns a value in
`[0, 1]` for ALL real inputs" is false — at `c_cross = 2`, `c_total = 1`
the code returns `2 / 1 = 2 > 1`. -/
theorem crossing_fraction_counterexample :
    crossing_fraction 2 1 = 2 ∧ ¬ crossing_fraction 2 1 ≤ 1 := by
  unfold crossing_fraction
  norm_num

/-- C7 amended: `crossing_fraction c_cross c_total ∈ [0, 1]` whenever
`0 ≤ c_cross ≤ c_total`; it is `0` whenever `c_total ≤ 0`; and
`crossing_fraction 0 0 = 0`, `crossing_fraction x x = 1` for `x > 0`,
`crossing_fraction 50 100 = 1/2`. -/
theorem crossing_fraction_spec :
    (∀ c_cross c_total : ℝ, 0 ≤ c_cross → c_cross ≤ c_total →
      crossing_fraction c_cross c_total ∈ Set.Icc (0 : ℝ) 1) ∧
    (∀ c_cross c_total : ℝ, c_total ≤ 0 →
      crossing_fraction c_cross c_total = 0) ∧
    crossing_fraction 0 0 = 0 ∧
    (∀ x : ℝ, 0 < x → crossing_fraction x x = 1) ∧
    crossing_fraction 50 100 = 1 / 2 := by
  refine ⟨?_, ?_, ?_, ?_, ?_⟩
  · intro c_cross c_total hc hct
    unfold crossing_fraction
    split_ifs with ht
    · exact ⟨le_refl 0, by norm_num⟩
    · have hpos : 0 < c_total := not_le.mp ht
      exact ⟨div_nonneg hc (le_of_lt hpos), (div_le_one hpos).mpr hct⟩
  · intro c_cross c_total ht
    unfold crossing_fraction
    rw [if_pos ht]
  · unfold crossing_fraction
    norm_num
  · intro x hx
    unfold crossing_fraction
    rw [if_neg (not_le.mpr hx)]
    exact div_self (ne_of_gt hx)
  · unfold crossing_fraction
    norm_num

/-- Witness for C7 amended: at `(50, 100)` the fraction lies in `[0, 1]`. -/
theorem crossing_fraction_spec_witness :
    (0 : ℝ) ≤ 50 ∧ (50 : ℝ) ≤ 100 ∧
    crossing_fraction 50 100 ∈ Set.Icc (0 : ℝ) 1 :=
  ⟨by norm_num, by norm_num,
   crossing_fraction_spec.1 50 100 (by norm_num) (by norm_num)⟩

/-- C8: `sweep` fails with an invalid-argument error exactly when
`steps < 2`, `cross_min ≤ 0`, `cross_max ≤ 0`, `cross_min > cross_max`, or
`bytes_per_event ≤ 0`; otherwise it fully succeeds and returns a complete
list of `steps` results. -/
theorem sweep_validation (bytes_compute cross_min cross_max steps
    bytes_per_event : ℤ) (compute : ComputeCost) (boundary : BoundaryCost) :
    ((∃ e, sweep bytes_compute cross_min cross_max steps bytes_per_event
        compute boundary = .error e)
      ↔ (steps < 2 ∨ cross_min ≤ 0 ∨ cross_max ≤ 0 ∨ cross_max < cross_min
          ∨ bytes_per_event ≤ 0)) ∧
    ((∃ l, sweep bytes_compute cross_min cross_max steps bytes_per_event
        compute boundary = .ok l ∧ (l.length : ℤ) = steps)
      ↔ ¬(steps < 2 ∨ cross_min ≤ 0 ∨ cross_max ≤ 0 ∨ cross_max < cross_min
          ∨ bytes_per_event ≤ 0)) := by
  by_cases hcond : steps < 2 ∨ cross_min ≤ 0 ∨ cross_max ≤ 0
      ∨ cross_max < cross_min ∨ bytes_per_event ≤ 0
  · have herr : ∃ e, sweep bytes_compute cross_min cross_max steps
        bytes_per_event compute boundary = .error e := by
      unfold sweep
      split_ifs with h1 h2 h3
      · exact ⟨_, rfl⟩
      · exact ⟨_, rfl⟩
      · exact ⟨_, rfl⟩
      · exfalso; omega
    refine ⟨⟨fun _ => hcond, fun _ => herr⟩, ?_, ?_⟩
    · rintro ⟨l, hl, -⟩
      obtain ⟨e, he⟩ := herr
      rw [he] at hl
      exact Except.noConfusion hl
    · intro hn
      exact absurd hcond hn
  · have hok := sweep_ok bytes_compute cross_min cross_max steps
      bytes_per_event compute boundary (by omega) (by omega) (by omega)
      (by omega)
    refine ⟨⟨?_, fun h => absurd h hcond⟩, fun _ => hcond, fun _ => ?_⟩
    · rintro ⟨e, he⟩
      rw [hok] at he
      exact Except.noConfusion he
    · refine ⟨_, hok, ?_⟩
      rw [List.length_map, List.length_range]
      exact_mod_cast Int.toNat_of_nonneg (by omega : (0 : ℤ) ≤ steps)

lemma sweepBytes_const (cross_min steps : ℤ) (hmin : 0 < cross_min) (i : ℕ) :
    sweepBytes cross_min cross_min steps i = cross_min := by
  unfold sweepBytes
  rw [sub_self, mul_zero, add_zero, Real.exp_log (by exact_mod_cast hmin)]
  exact pyRound_intCast cross_min

/-- C1: for valid inputs, `sweep` returns exactly `steps` points; point `i`
samples `round(exp(log cross_min + (i/(steps-1)) * (log cross_max -
log cross_min)))` crossing bytes and `max(1, ceil(b / bytes_per_event))`
events; the first point samples `cross_min`, the last `cross_max`, and every
event count is at least 1. -/
theorem sweep_samples (bytes_compute cross_min cross_max steps
    bytes_per_event : ℤ) (compute : ComputeCost) (boundary : BoundaryCost)
    (hmin : 0 < cross_min) (hmax : 0 < cross_max) (hmm : cross_min ≤ cross_max)
    (hst : 2 ≤ steps) (hbpe : 0 < bytes_per_event) :
    ∃ l, sweep bytes_compute cross_min cross_max steps bytes_per_event
        compute boundary = .ok l ∧
      (l.length : ℤ) = steps ∧
      (∀ (i : ℕ) (hi : i < l.length),
        l[i].bytes_cross = pyRound (Real.exp (Real.log (cross_min : ℝ)
            + ((i : ℝ) / ((steps : ℝ) - 1))
              * (Real.log (cross_max : ℝ) - Real.log (cross_min : ℝ)))) ∧
        l[i].events_cross
          = max 1 ⌈(l[i].bytes_cross : ℝ) / (bytes_per_event : ℝ)⌉ ∧
        1 ≤ l[i].events_cross) ∧
      (∀ h0 : 0 < l.length, l[0].bytes_cross = cross_min) ∧
      (∀ hl : l.length - 1 < l.length,
        l[l.length - 1].bytes_cross = cross_max) := by
  refine ⟨_, sweep_ok bytes_compute cross_min cross_max steps bytes_per_event
    compute boundary hmin hmm hst hbpe, ?_, ?_, ?_, ?_⟩
  · rw [List.length_map, List.length_range]
    exact_mod_cast Int.toNat_of_nonneg (by omega : (0 : ℤ) ≤ steps)
  · intro i hi
    rw [List.getElem_map, List.getElem_range]
    exact ⟨rfl, rfl, one_le_ceilEvents _ _⟩
  · intro h0
    rw [List.getElem_map, List.getElem_range]
    exact sweepBytes_zero cross_min cross_max steps hmin
  · intro hl
    rw [List.getElem_map, List.getElem_range]
    have hlen : ((List.range steps.toNat).map (sweepResult bytes_compute
        cross_min cross_max steps bytes_per_event compute boundary)).length
        = steps.toNat := by
      rw [List.length_map, List.length_range]
    rw [hlen]
    exact sweepBytes_last cross_min cross_max steps hmax hst

/-- Witness for C1 at `cross_min = 2`, `cross_max = 8`, `steps = 3`,
`bytes_per_event = 4`. -/
theorem sweep_samples_witness :
    ∃ l, sweep 100 2 8 3 4 ⟨1⟩ ⟨1, 1⟩ = .ok l ∧
      (l.length : ℤ) = 3 ∧
      (∀ (i : ℕ) (hi : i < l.length),
        l[i].bytes_cross = pyRound (Real.exp (Real.log ((2 : ℤ) : ℝ)
            + ((i : ℝ) / (((3 : ℤ) : ℝ) - 1))
              * (Real.log ((8 : ℤ) : ℝ) - Real.log ((2 : ℤ) : ℝ)))) ∧
        l[i].events_cross
          = max 1 ⌈(l[i].bytes_cross : ℝ) / ((4 : ℤ) : ℝ)⌉ ∧
        1 ≤ l[i].events_cross) ∧
      (∀ h0 : 0 < l.length, l[0].bytes_cross = 2) ∧
      (∀ hl : l.length - 1 < l.length, l[l.length - 1].bytes_cross = 8) :=
  sweep_samples 100 2 8 3 4 ⟨1⟩ ⟨1, 1⟩ (by norm_num) (by norm_num)
    (by norm_num) (by norm_num) (by norm_num)

/-- C4: in every sweep result the first point has `epsilon_local = 0`; every
later point `i = j + 1` has `epsilon_local = log_slope(bytes_cross[j],
c_total[j], bytes_cross[i], c_total[i])`; and when `cross_min = cross_max`
every point samples that same byte count and has `epsilon_local = 0`. -/
theorem sweep_epsilon (bytes_compute cross_min cross_max steps
    bytes_per_event : ℤ) (compute : ComputeCost) (boundary : BoundaryCost)
    (hmin : 0 < cross_min) (hmm : cross_min ≤ cross_max)
    (hst : 2 ≤ steps) (hbpe : 0 < bytes_per_event) :
    ∃ l, sweep bytes_compute cross_min cross_max steps bytes_per_event
        compute boundary = .ok l ∧
      (∀ h0 : 0 < l.length, l[0].epsilon_local = 0) ∧
      (∀ (i j : ℕ) (hi : i < l.length) (hj : j < l.length), j + 1 = i →
        l[i].epsilon_local
          = log_slope ((l[j].bytes_cross : ℤ) : ℝ) (l[j].c_total_pj)
              ((l[i].bytes_cross : ℤ) : ℝ) (l[i].c_total_pj)) ∧
      (cross_min = cross_max →
        ∀ (i : ℕ) (hi : i < l.length),
          l[i].bytes_cross = cross_min ∧ l[i].epsilon_local = 0) := by
  refine ⟨_, sweep_ok bytes_compute cross_min cross_max steps bytes_per_event
    compute boundary hmin hmm hst hbpe, ?_, ?_, ?_⟩
  · intro h0
    rw [List.getElem_map, List.getElem_range]
    simp [sweepResult]
  · intro i j hi hj hji
    rw [List.getElem_map, List.getElem_range, List.getElem_map,
      List.getElem_range]
    show (sweepResult bytes_compute cross_min cross_max steps bytes_per_event
      compute boundary i).epsilon_local = _
    unfold sweepResult
    rw [if_neg (by omega : ¬ i = 0)]
    have hij : i - 1 = j := by omega
    rw [hij]
  · intro hcc i hi
    subst hcc
    rw [List.getElem_map, List.getElem_range]
    refine ⟨sweepBytes_const cross_min steps hmin i, ?_⟩
    show (sweepResult bytes_compute cross_min cross_min steps bytes_per_event
      compute boundary i).epsilon_local = 0
    unfold sweepResult
    split_ifs with h0
    · rfl
    · rw [sweepBytes_const cross_min steps hmin (i - 1),
        sweepBytes_const cross_min steps hmin i]
      unfold log_slope
      rw [if_pos (Or.inr (Or.inr (Or.inr (Or.inr rfl))))]

/-- Witness for C4 at `cross_min = cross_max = 5`, `steps = 2`. -/
theorem sweep_epsilon_witness :
    ∃ l, sweep 10 5 5 2 1 ⟨1⟩ ⟨0, 1⟩ = .ok l ∧
      (∀ h0 : 0 < l.length, l[0].epsilon_local = 0) ∧
      (∀ (i j : ℕ) (hi : i < l.length) (hj : j < l.length), j + 1 = i →
        l[i].epsilon_local
          = log_slope ((l[j].bytes_cross : ℤ) : ℝ) (l[j].c_total_pj)
              ((l[i].bytes_cross : ℤ) : ℝ) (l[i].c_total_pj)) ∧
      ((5 : ℤ) = 5 →
        ∀ (i : ℕ) (hi : i < l.length),
          l[i].bytes_cross = 5 ∧ l[i].epsilon_local = 0) :=
  sweep_epsilon 10 5 5 2 1 ⟨1⟩ ⟨0, 1⟩ (by norm_num) (by norm_num)
    (by norm_num) (by norm_num)

lemma energy_cross_mono {b1 b2 ev1 ev2 : ℤ} (boundary : BoundaryCost)
    (halpha : 0 ≤ boundary.alpha_pj_per_event)
    (hbeta : 0 ≤ boundary.beta_pj_per_byte)
    (hb : b1 ≤ b2) (hev : ev1 ≤ ev2) :
    energy_cross b1 ev1 boundary ≤ energy_cross b2 ev2 boundary := by
  unfold energy_cross
  exact add_le_add
    (mul_le_mul_of_nonneg_right (by exact_mod_cast hev) halpha)
    (mul_le_mul_of_nonneg_right (by exact_mod_cast hb) hbeta)

lemma energy_cross_nonneg {b ev : ℤ} (boundary : BoundaryCost)
    (halpha : 0 ≤ boundary.alpha_pj_per_event)
    (hbeta : 0 ≤ boundary.beta_pj_per_byte)
    (hb : 0 ≤ b) (hev : 0 ≤ ev) :
    0 ≤ energy_cross b ev boundary := by
  unfold energy_cross
  exact add_nonneg (mul_nonneg (by exact_mod_cast hev) halpha)
    (mul_nonneg (by exact_mod_cast hb) hbeta)

lemma energy_intra_nonneg {bc : ℤ} (compute : ComputeCost)
    (hpj : 0 ≤ compute.pj_per_byte) (hbc : 0 ≤ bc) :
    0 ≤ energy_intra bc compute :=
  mul_nonneg (by exact_mod_cast hbc) hpj

/-- C3: for valid inputs and non-negative cost parameters, the sampled
`bytes_cross` and derived `events_cross`, `c_total_pj` and
`crossing_fraction` sequences of the sweep are each monotonically
non-decreasing in index order. -/
theorem sweep_monotone (bytes_compute cross_min cross_max steps
    bytes_per_event : ℤ) (compute : ComputeCost) (boundary : BoundaryCost)
    (hmin : 0 < cross_min) (hmm : cross_min ≤ cross_max)
    (hst : 2 ≤ steps) (hbpe : 0 < bytes_per_event)
    (hbc : 0 ≤ bytes_compute) (hpj : 0 ≤ compute.pj_per_byte)
    (halpha : 0 ≤ boundary.alpha_pj_per_event)
    (hbeta : 0 ≤ boundary.beta_pj_per_byte) :
    ∃ l, sweep bytes_compute cross_min cross_max steps bytes_per_event
        compute boundary = .ok l ∧
      ∀ (i j : ℕ) (hi : i < l.length) (hj : j < l.length), i ≤ j →
        l[i].bytes_cross ≤ l[j].bytes_cross ∧
        l[i].events_cross ≤ l[j].events_cross ∧
        l[i].c_total_pj ≤ l[j].c_total_pj ∧
        l[i].crossing_fraction ≤ l[j].crossing_fraction := by
  refine ⟨_, sweep_ok bytes_compute cross_min cross_max steps bytes_per_event
    compute boundary hmin hmm hst hbpe, ?_⟩
  intro i j hi hj hij
  rw [List.getElem_map, List.getElem_range, List.getElem_map,
    List.getElem_range]
  have hb : sweepBytes cross_min cross_max steps i
      ≤ sweepBytes cross_min cross_max steps j :=
    sweepBytes_mono cross_min cross_max steps hmin hmm hst hij
  have hev : ceilEvents (sweepBytes cross_min cross_max steps i)
        bytes_per_event
      ≤ ceilEvents (sweepBytes cross_min cross_max steps j)
        bytes_per_event :=
    ceilEvents_mono hbpe hb
  have hcross : energy_cross (sweepBytes cross_min cross_max steps i)
        (ceilEvents (sweepBytes cross_min cross_max steps i) bytes_per_event)
        boundary
      ≤ energy_cross (sweepBytes cross_min cross_max steps j)
        (ceilEvents (sweepBytes cross_min cross_max steps j) bytes_per_event)
        boundary :=
    energy_cross_mono boundary halpha hbeta hb hev
  have hcross0 : 0 ≤ energy_cross (sweepBytes cross_min cross_max steps i)
      (ceilEvents (sweepBytes cross_min cross_max steps i) bytes_per_event)
      boundary :=
    energy_cross_nonneg boundary halpha hbeta
      (le_trans (by norm_num)
        (one_le_sweepBytes cross_min cross_max steps hmin hmm hst i))
      (le_trans (by norm_num) (one_le_ceilEvents _ _))
  refine ⟨hb, hev, ?_, ?_⟩
  · show energy_intra bytes_compute compute + _
      ≤ energy_intra bytes_compute compute + _
    exact add_le_add_left hcross _
  · show CrossingBench.crossing_fraction _ (energy_intra bytes_compute compute + _)
      ≤ CrossingBench.crossing_fraction _ (energy_intra bytes_compute compute + _)
    exact crossing_fraction_mono_add
      (energy_intra_nonneg compute hpj hbc) hcross0 hcross

/-- Witness for C3 at a small concrete sweep (`2 → 8` over 3 steps). -/
theorem sweep_monotone_witness :
    ∃ l, sweep 100 2 8 3 4 ⟨1⟩ ⟨2, 3⟩ = .ok l ∧
      ∀ (i j : ℕ) (hi : i < l.length) (hj : j < l.length), i ≤ j →
        l[i].bytes_cross ≤ l[j].bytes_cross ∧
        l[i].events_cross ≤ l[j].events_cross ∧
        l[i].c_total_pj ≤ l[j].c_total_pj ∧
        l[i].crossing_fraction ≤ l[j].crossing_fraction :=
  sweep_monotone 100 2 8 3 4 ⟨1⟩ ⟨2, 3⟩ (by norm_num) (by norm_num)
    (by norm_num) (by norm_num) (by norm_num) (by norm_num) (by norm_num)
    (by norm_num)

/-! ### Helper lemmas about the comparator -/

lemma compare_ok (bytes_compute cross_bytes bytes_per_event : ℤ)
    (reduce_factor : ℝ) (compute : ComputeCost) (boundary : BoundaryCost)
    (hcb : 0 < cross_bytes) (hbpe : 0 < bytes_per_event)
    (hrf : 0 < reduce_factor) :
    compare_baseline_vs_reduced bytes_compute cross_bytes bytes_per_event
        reduce_factor compute boundary
      = .ok (compareRecord bytes_compute cross_bytes bytes_per_event
          reduce_factor compute boundary) := by
  unfold compare_baseline_vs_reduced
  rw [if_neg (by omega), if_neg (by omega), if_neg (not_le.mpr hrf)]

lemma compareGain_pos {bt rt : ℝ} (h : 0 < rt) :
    compareGain bt rt = ((bt / rt : ℝ) : EReal) := by
  unfold compareGain
  rw [if_pos h]

lemma compareGain_of_nonpos {bt rt : ℝ} (h : rt ≤ 0) :
    compareGain bt rt = ⊤ := by
  unfold compareGain
  rw [if_neg (not_lt.mpr h)]

lemma compareEff_of_finite {g : EReal} {rf : ℝ} (h1 : rf ≠ 1) (h2 : 0 < g)
    (h3 : g ≠ ⊤) :
    compareEff g rf = ((Real.log g.toReal / Real.log rf : ℝ) : EReal) := by
  unfold compareEff
  rw [if_pos ⟨h1, h2⟩, if_neg h3]

lemma compareEff_of_top {rf : ℝ} (h1 : rf ≠ 1) :
    compareEff ⊤ rf = (if 0 < Real.log rf then (⊤ : EReal) else ⊥) := by
  unfold compareEff
  rw [if_pos ⟨h1, EReal.zero_lt_top⟩, if_pos rfl]

lemma compareEff_of_not {g : EReal} {rf : ℝ} (h : ¬(rf ≠ 1 ∧ 0 < g)) :
    compareEff g rf = 0 := by
  unfold compareEff
  rw [if_neg h]

lemma energy_cross_mono_alpha {b ev : ℤ} {a1 a2 beta : ℝ} (hev : 0 ≤ ev)
    (h : a1 ≤ a2) :
    energy_cross b ev ⟨a1, beta⟩ ≤ energy_cross b ev ⟨a2, beta⟩ := by
  unfold energy_cross
  exact add_le_add (mul_le_mul_of_nonneg_left h (by exact_mod_cast hev))
    le_rfl

/-- C5: for valid compare inputs, the reduced point uses
`max(1, round(cross_bytes / reduce_factor))` bytes and
`max(1, ceil(reduced_bytes / bytes_per_event))` events; `energy_gain_x` is
`baseline_total / reduced_total` when the reduced total is positive and `+∞`
otherwise; `elasticity_effective` is `log(gain) / log(reduce_factor)` when
`reduce_factor ≠ 1` and the gain is positive (with the infinite-gain case
giving the corresponding signed infinity), and `0` otherwise. -/
theorem compare_spec (bytes_compute cross_bytes bytes_per_event : ℤ)
    (reduce_factor : ℝ) (compute : ComputeCost) (boundary : BoundaryCost)
    (hcb : 0 < cross_bytes) (hbpe : 0 < bytes_per_event)
    (hrf : 0 < reduce_factor) :
    ∃ r, compare_baseline_vs_reduced bytes_compute cross_bytes
        bytes_per_event reduce_factor compute boundary = .ok r ∧
      r.reduced_cross_bytes
        = ((max 1 (pyRound ((cross_bytes : ℝ) / reduce_factor)) : ℤ) : ℝ) ∧
      r.reduced_events
        = ((max 1 ⌈((max 1 (pyRound ((cross_bytes : ℝ) / reduce_factor))
            : ℤ) : ℝ) / (bytes_per_event : ℝ)⌉ : ℤ) : ℝ) ∧
      (0 < r.reduced_total_pj → r.energy_gain_x
        = ((r.baseline_total_pj / r.reduced_total_pj : ℝ) : EReal)) ∧
      (r.reduced_total_pj ≤ 0 → r.energy_gain_x = ⊤) ∧
      (reduce_factor ≠ 1 → 0 < r.energy_gain_x → r.energy_gain_x ≠ ⊤ →
        r.elasticity_effective
          = ((Real.log r.energy_gain_x.toReal / Real.log reduce_factor : ℝ)
            : EReal)) ∧
      (reduce_factor ≠ 1 → r.energy_gain_x = ⊤ →
        r.elasticity_effective
          = (if 0 < Real.log reduce_factor then (⊤ : EReal) else ⊥)) ∧
      (¬(reduce_factor ≠ 1 ∧ 0 < r.energy_gain_x) →
        r.elasticity_effective = 0) := by
  refine ⟨_, compare_ok bytes_compute cross_bytes bytes_per_event
    reduce_factor compute boundary hcb hbpe hrf, ?_⟩
  simp only [compareRecord]
  refine ⟨rfl, rfl, ?_, ?_, ?_, ?_, ?_⟩
  · exact fun h => compareGain_pos h
  · exact fun h => compareGain_of_nonpos h
  · exact fun h1 h2 h3 => compareEff_of_finite h1 h2 h3
  · intro h1 h2
    rw [h2, compareEff_of_top h1]
  · exact fun h => compareEff_of_not h

/-- Witness for C5 at `cross_bytes = 10`, `bytes_per_event = 4`,
`reduce_factor = 2`. -/
theorem compare_spec_witness :
    ∃ r, compare_baseline_vs_reduced 3 10 4 2 ⟨1⟩ ⟨1, 1⟩ = .ok r ∧
      r.reduced_cross_bytes
        = ((max 1 (pyRound (((10 : ℤ) : ℝ) / 2)) : ℤ) : ℝ) ∧
      r.reduced_events
        = ((max 1 ⌈((max 1 (pyRound (((10 : ℤ) : ℝ) / 2))
            : ℤ) : ℝ) / ((4 : ℤ) : ℝ)⌉ : ℤ) : ℝ) ∧
      (0 < r.reduced_total_pj → r.energy_gain_x
        = ((r.baseline_total_pj / r.reduced_total_pj : ℝ) : EReal)) ∧
      (r.reduced_total_pj ≤ 0 → r.energy_gain_x = ⊤) ∧
      ((2 : ℝ) ≠ 1 → 0 < r.energy_gain_x → r.energy_gain_x ≠ ⊤ →
        r.elasticity_effective
          = ((Real.log r.energy_gain_x.toReal / Real.log 2 : ℝ) : EReal)) ∧
      ((2 : ℝ) ≠ 1 → r.energy_gain_x = ⊤ →
        r.elasticity_effective
          = (if 0 < Real.log 2 then (⊤ : EReal) else ⊥)) ∧
      (¬((2 : ℝ) ≠ 1 ∧ 0 < r.energy_gain_x) →
        r.elasticity_effective = 0) :=
  compare_spec 3 10 4 2 ⟨1⟩ ⟨1, 1⟩ (by norm_num) (by norm_num) (by norm_num)

/-- C9: with non-negative cost parameters, a larger per-event crossing cost
`alpha` (holding `beta` and all other inputs fixed) never decreases
`baseline_cross_frac`. -/
theorem compare_alpha_mono (bytes_compute cross_bytes bytes_per_event : ℤ)
    (reduce_factor beta alpha1 alpha2 : ℝ) (compute : ComputeCost)
    (hbc : 0 ≤ bytes_compute) (hcb : 0 < cross_bytes)
    (hbpe : 0 < bytes_per_event) (hrf : 0 < reduce_factor)
    (hpj : 0 ≤ compute.pj_per_byte) (hbeta : 0 ≤ beta) (ha1 : 0 ≤ alpha1)
    (ha12 : alpha1 ≤ alpha2) :
    ∃ r1 r2,
      compare_baseline_vs_reduced bytes_compute cross_bytes bytes_per_event
        reduce_factor compute ⟨alpha1, beta⟩ = .ok r1 ∧
      compare_baseline_vs_reduced bytes_compute cross_bytes bytes_per_event
        reduce_factor compute ⟨alpha2, beta⟩ = .ok r2 ∧
      r1.baseline_cross_frac ≤ r2.baseline_cross_frac := by
  refine ⟨_, _,
    compare_ok bytes_compute cross_bytes bytes_per_event reduce_factor
      compute ⟨alpha1, beta⟩ hcb hbpe hrf,
    compare_ok bytes_compute cross_bytes bytes_per_event reduce_factor
      compute ⟨alpha2, beta⟩ hcb hbpe hrf, ?_⟩
  simp only [compareRecord]
  have hev0 : (0 : ℤ) ≤ compareBaseEv cross_bytes bytes_per_event :=
    le_trans (by norm_num) (le_max_left 1 _)
  show CrossingBench.crossing_fraction _
      (energy_intra bytes_compute compute + _)
    ≤ CrossingBench.crossing_fraction _
      (energy_intra bytes_compute compute + _)
  exact crossing_fraction_mono_add (energy_intra_nonneg compute hpj hbc)
    (energy_cross_nonneg ⟨alpha1, beta⟩ ha1 hbeta (le_of_lt hcb) hev0)
    (energy_cross_mono_alpha hev0 ha12)

/-- Witness for C9 at `alpha1 = 0`, `alpha2 = 7`. -/
theorem compare_alpha_mono_witness :
    ∃ r1 r2,
      compare_baseline_vs_reduced 3 10 4 2 ⟨1⟩ ⟨0, 1⟩ = .ok r1 ∧
      compare_baseline_vs_reduced 3 10 4 2 ⟨1⟩ ⟨7, 1⟩ = .ok r2 ∧
      r1.baseline_cross_frac ≤ r2.baseline_cross_frac :=
  compare_alpha_mono 3 10 4 2 1 0 7 ⟨1⟩ (by norm_num) (by norm_num)
    (by norm_num) (by norm_num) (by norm_num) (by norm_num) (by norm_num)
    (by norm_num)

/-- C10: with `reduce_factor ≥ 1` and non-negative cost parameters, the
reduced point never exceeds the baseline in crossing bytes, events or total
energy, so `energy_gain_x ≥ 1` (with `+∞` counting as `≥ 1`). -/
theorem compare_reduction_le (bytes_compute cross_bytes bytes_per_event : ℤ)
    (reduce_factor : ℝ) (compute : ComputeCost) (boundary : BoundaryCost)
    (hbc : 0 ≤ bytes_compute) (hcb : 0 < cross_bytes)
    (hbpe : 0 < bytes_per_event) (hrf : 1 ≤ reduce_factor)
    (hpj : 0 ≤ compute.pj_per_byte)
    (halpha : 0 ≤ boundary.alpha_pj_per_event)
    (hbeta : 0 ≤ boundary.beta_pj_per_byte) :
    ∃ r, compare_baseline_vs_reduced bytes_compute cross_bytes
        bytes_per_event reduce_factor compute boundary = .ok r ∧
      r.reduced_cross_bytes ≤ r.baseline_cross_bytes ∧
      r.reduced_events ≤ r.baseline_events ∧
      r.reduced_total_pj ≤ r.baseline_total_pj ∧
      1 ≤ r.energy_gain_x := by
  refine ⟨_, compare_ok bytes_compute cross_bytes bytes_per_event
    reduce_factor compute boundary hcb hbpe
    (lt_of_lt_of_le one_pos hrf), ?_⟩
  simp only [compareRecord]
  have hrb : compareRedBytes cross_bytes reduce_factor ≤ cross_bytes := by
    unfold compareRedBytes
    apply max_le (by omega)
    calc pyRound ((cross_bytes : ℝ) / reduce_factor)
        ≤ pyRound ((cross_bytes : ℝ)) :=
          pyRound_mono (div_le_self
            (by exact_mod_cast le_of_lt hcb) hrf)
      _ = cross_bytes := pyRound_intCast cross_bytes
  have hre : compareRedEv cross_bytes bytes_per_event reduce_factor
      ≤ compareBaseEv cross_bytes bytes_per_event := by
    unfold compareRedEv compareBaseEv
    apply max_le_max le_rfl
    apply Int.ceil_mono
    have hpos : (0 : ℝ) < (bytes_per_event : ℝ) := by exact_mod_cast hbpe
    exact (div_le_div_right hpos).mpr (by exact_mod_cast hrb)
  have hxy : energy_cross (compareRedBytes cross_bytes reduce_factor)
        (compareRedEv cross_bytes bytes_per_event reduce_factor) boundary
      ≤ energy_cross cross_bytes
        (compareBaseEv cross_bytes bytes_per_event) boundary :=
    energy_cross_mono boundary halpha hbeta hrb hre
  have htot : energy_intra bytes_compute compute
        + energy_cross (compareRedBytes cross_bytes reduce_factor)
          (compareRedEv cross_bytes bytes_per_event reduce_factor) boundary
      ≤ energy_intra bytes_compute compute
        + energy_cross cross_bytes
          (compareBaseEv cross_bytes bytes_per_event) boundary :=
    add_le_add_left hxy _
  refine ⟨by exact_mod_cast hrb, by exact_mod_cast hre, htot, ?_⟩
  show 1 ≤ compareGain _ _
  unfold compareGain
  split_ifs with h
  · rw [← EReal.coe_one, EReal.coe_le_coe_iff]
    exact (one_le_div h).mpr htot
  · exact le_top

/-- Witness for C10 at `cross_bytes = 10`, `reduce_factor = 2`. -/
theorem compare_reduction_le_witness :
    ∃ r, compare_baseline_vs_reduced 3 10 4 2 ⟨1⟩ ⟨2, 3⟩ = .ok r ∧
      r.reduced_cross_bytes ≤ r.baseline_cross_bytes ∧
      r.reduced_events ≤ r.baseline_events ∧
      r.reduced_total_pj ≤ r.baseline_total_pj ∧
      1 ≤ r.energy_gain_x :=
  compare_reduction_le 3 10 4 2 ⟨1⟩ ⟨2, 3⟩ (by norm_num) (by norm_num)
    (by norm_num) (by norm_num) (by norm_num) (by norm_num) (by norm_num)

end CrossingBench
